import Mathlib

/-!
Shallow embedding of the beat-alignment / duration-normalization pipeline of
`src/preprocess.py` (freesound-loop-generator).

Audio buffers are modelled as lists of rational samples (the pipeline collapses
every file to mono before any of the modelled code runs, so one channel
suffices).  External library calls (librosa loading, onset strength, chroma,
beat tracking, ffmpeg subprocesses) are modelled by passing their outputs in as
arguments; everything the repository itself computes is translated directly
from the source.
-/

namespace Preprocess

/-- Module constant `TARGET_SAMPLE_RATE = 44100` (src/preprocess.py line 18). -/
def TARGET_SAMPLE_RATE : ℕ := 44100

/-- Module constant `TARGET_DURATION = 16` (src/preprocess.py line 19). -/
def TARGET_DURATION : ℕ := 16

/-- Module constant `TARGET_BPM = 120` (src/preprocess.py line 20). -/
def TARGET_BPM : ℕ := 120

/-- Python `int()` applied to a nonnegative/negative rational: truncation
toward zero (floor for nonnegative values, ceiling for negative ones). -/
def pyInt (q : ℚ) : ℤ :=
  if 0 ≤ q then ⌊q⌋ else ⌈q⌉

/-- `int(np.ceil(a / b))` for positive integers, as used by the looping code
paths (`preprocess.py` lines 318 and 385): ceiling division on naturals. -/
def ceilDivNat (a b : ℕ) : ℕ :=
  (a + b - 1) / b

/-- `tensor.repeat(1, n)` along the sample axis: the buffer concatenated with
itself `n` times. -/
def tileList (n : ℕ) (l : List α) : List α :=
  match n with
  | 0 => []
  | n + 1 => l ++ tileList n l

/-- `ensure_exact_length` (src/preprocess.py lines 368-390): return the buffer
unchanged if it already has `target_samples` samples, tile-then-truncate it if
it is shorter, truncate it if it is longer. -/
def ensure_exact_length (wav : List ℚ) (target_samples : ℕ) : List ℚ :=
  if wav.length = target_samples then wav
  else if wav.length < target_samples then
    (tileList (ceilDivNat target_samples wav.length) wav).take target_samples
  else
    wav.take target_samples

lemma tileList_length (n : ℕ) (l : List α) : (tileList n l).length = n * l.length := by
  induction n with
  | zero => simp [tileList]
  | succ n ih => simp [tileList, ih, Nat.succ_mul, Nat.add_comm]

lemma le_ceilDivNat_mul (a b : ℕ) (hb : 0 < b) : a ≤ ceilDivNat a b * b := by
  rcases Nat.eq_zero_or_pos a with ha | ha
  · simp [ha]
  · unfold ceilDivNat
    have h0 : a + b - 1 = (a - 1) + b := by omega
    rw [h0, Nat.add_div_right _ hb, Nat.succ_mul]
    have h1 := Nat.div_add_mod (a - 1) b
    have h2 := Nat.mod_lt (a - 1) hb
    have h3 : (a - 1) / b * b = b * ((a - 1) / b) := Nat.mul_comm _ _
    omega

lemma ensure_exact_length_length (wav : List ℚ) (t : ℕ) (hw : 1 ≤ wav.length) :
    (ensure_exact_length wav t).length = t := by
  unfold ensure_exact_length
  split_ifs with h1 h2
  · exact h1
  · rw [List.length_take, tileList_length]
    exact Nat.min_eq_left (le_ceilDivNat_mul t wav.length hw)
  · rw [List.length_take]
    omega

/-- C2: for every buffer with at least one sample and every positive target,
`ensure_exact_length` returns a buffer of exactly `target_samples` samples —
unchanged if already exact, tiled then truncated if shorter, truncated if
longer. -/
theorem ensure_exact_length_spec (wav : List ℚ) (t : ℕ)
    (hw : 1 ≤ wav.length) (ht : 1 ≤ t) :
    (ensure_exact_length wav t).length = t ∧
    (wav.length = t → ensure_exact_length wav t = wav) ∧
    (wav.length < t →
      ensure_exact_length wav t = (tileList (ceilDivNat t wav.length) wav).take t) ∧
    (t < wav.length → ensure_exact_length wav t = wav.take t) := by
  refine ⟨ensure_exact_length_length wav t hw, ?_, ?_, ?_⟩
  · intro h
    simp [ensure_exact_length, h]
  · intro h
    have hne : wav.length ≠ t := Nat.ne_of_lt h
    simp [ensure_exact_length, hne, h]
  · intro h
    have hne : wav.length ≠ t := Nat.ne_of_gt h
    have hnlt : ¬ wav.length < t := Nat.not_lt.mpr (Nat.le_of_lt h)
    simp [ensure_exact_length, hne, hnlt]

theorem ensure_exact_length_spec_witness :
    1 ≤ ([1, 2] : List ℚ).length ∧ 1 ≤ 5 ∧
    (ensure_exact_length [1, 2] 5).length = 5 :=
  ⟨by decide, by decide, (ensure_exact_length_spec [1, 2] 5 (by decide) (by decide)).1⟩

/-- C3: the Length Normalizer is idempotent — a buffer already of the target
length comes back unchanged, and applying it twice with the same positive
target equals applying it once. -/
theorem ensure_exact_length_idempotent (wav : List ℚ) (t : ℕ) :
    (wav.length = t → ensure_exact_length wav t = wav) ∧
    (1 ≤ wav.length → 1 ≤ t →
      ensure_exact_length (ensure_exact_length wav t) t = ensure_exact_length wav t) := by
  constructor
  · intro h
    simp [ensure_exact_length, h]
  · intro hw ht
    have hlen : (ensure_exact_length wav t).length = t :=
      ensure_exact_length_length wav t hw
    set e := ensure_exact_length wav t with he
    simp [ensure_exact_length, hlen]

theorem ensure_exact_length_idempotent_witness :
    1 ≤ ([1, 2] : List ℚ).length ∧ 1 ≤ 3 ∧
    ensure_exact_length (ensure_exact_length [1, 2] 3) 3 = ensure_exact_length [1, 2] 3 :=
  ⟨by decide, by decide, (ensure_exact_length_idempotent [1, 2] 3).2 (by decide) (by decide)⟩

/-- `np.diff`: successive differences of a list. -/
def npDiff [Sub α] : List α → List α
  | a :: b :: t => (b - a) :: npDiff (b :: t)
  | _ => []

/-- `np.mean`: arithmetic mean of a list of reals. -/
noncomputable def npMean (l : List ℝ) : ℝ :=
  l.sum / l.length

/-- `np.std`: population standard deviation of a list of reals. -/
noncomputable def npStd (l : List ℝ) : ℝ :=
  Real.sqrt (((l.map fun x => (x - npMean l) ^ 2).sum) / l.length)

open Classical in
/-- `calculate_beat_confidence` (src/preprocess.py lines 193-223): confidence
in beat detection from the regularity of inter-beat intervals.  Beat
timestamps are real numbers (seconds). -/
noncomputable def calculate_beat_confidence (beat_times : List ℝ) : ℝ :=
  if beat_times.length < 3 then 0
  else
    let intervals := npDiff beat_times
    if intervals.length = 0 then 0
    else if npMean intervals = 0 then 0
    else min 1 (max 0 (1 - npStd intervals / npMean intervals * 2))

lemma npDiff_length [Sub α] (l : List α) : (npDiff l).length = l.length - 1 := by
  induction l with
  | nil => simp [npDiff]
  | cons a t ih =>
    cases t with
    | nil => simp [npDiff]
    | cons b t2 =>
      rw [npDiff]
      simp only [List.length_cons]
      rw [ih]
      simp

lemma npDiff_replicate (n : ℕ) (c : ℝ) :
    npDiff (List.replicate n c) = List.replicate (n - 1) 0 := by
  induction n with
  | zero => simp [npDiff]
  | succ n ih =>
    cases n with
    | zero => simp [npDiff, List.replicate]
    | succ m =>
      have step : npDiff (List.replicate (m + 1 + 1) c) =
          (c - c) :: npDiff (List.replicate (m + 1) c) := rfl
      rw [step, ih]
      simp [List.replicate_succ]

/-- C4: the confidence is always within `[0, 1]`; it is `0` whenever fewer
than 3 beats are supplied; and with at least 3 beats and a positive mean
inter-beat gap it equals `1 - 2 * (std/mean)` clamped to `[0, 1]`. -/
theorem calculate_beat_confidence_spec (bt : List ℝ) :
    (0 ≤ calculate_beat_confidence bt ∧ calculate_beat_confidence bt ≤ 1) ∧
    (bt.length < 3 → calculate_beat_confidence bt = 0) ∧
    (3 ≤ bt.length → 0 < npMean (npDiff bt) →
      calculate_beat_confidence bt =
        min 1 (max 0 (1 - npStd (npDiff bt) / npMean (npDiff bt) * 2))) := by
  refine ⟨?_, ?_, ?_⟩
  · simp only [calculate_beat_confidence]
    split_ifs with h1 h2 h3
    · norm_num
    · norm_num
    · norm_num
    · constructor
      · exact le_min zero_le_one (le_max_left 0 _)
      · exact min_le_left 1 _
  · intro h
    simp [calculate_beat_confidence, h]
  · intro h3 hmean
    have h1 : ¬ bt.length < 3 := Nat.not_lt.mpr h3
    have h2 : (npDiff bt).length ≠ 0 := by
      rw [npDiff_length]
      omega
    have hm : ¬ npMean (npDiff bt) = 0 := ne_of_gt hmean
    simp only [calculate_beat_confidence, if_neg h1, if_neg h2, if_neg hm]

theorem calculate_beat_confidence_spec_witness :
    3 ≤ ([0, 1, 2, 3] : List ℝ).length ∧
    0 < npMean (npDiff ([0, 1, 2, 3] : List ℝ)) ∧
    calculate_beat_confidence ([0, 1, 2, 3] : List ℝ) =
      min 1 (max 0 (1 - npStd (npDiff ([0, 1, 2, 3] : List ℝ)) /
        npMean (npDiff ([0, 1, 2, 3] : List ℝ)) * 2)) := by
  have hm : 0 < npMean (npDiff ([0, 1, 2, 3] : List ℝ)) := by
    norm_num [npMean, npDiff]
  exact ⟨by decide, hm, (calculate_beat_confidence_spec [0, 1, 2, 3]).2.2 (by decide) hm⟩

/-- C10: `calculate_beat_confidence` is total — the division by the mean
inter-beat interval is guarded, so a list of 3 or more identical timestamps
(mean gap 0) yields confidence 0 rather than a division by zero. -/
theorem calculate_beat_confidence_degenerate (c : ℝ) (n : ℕ) (h : 3 ≤ n) :
    calculate_beat_confidence (List.replicate n c) = 0 := by
  have h1 : ¬ (List.replicate n c).length < 3 := by
    simp [List.length_replicate]
    omega
  have h2 : (npDiff (List.replicate n c)).length ≠ 0 := by
    rw [npDiff_replicate, List.length_replicate]
    omega
  have hm : npMean (npDiff (List.replicate n c)) = 0 := by
    rw [npDiff_replicate]
    simp [npMean, List.sum_replicate]
  simp only [calculate_beat_confidence, if_neg h1, if_neg h2, if_pos hm]

theorem calculate_beat_confidence_degenerate_witness :
    3 ≤ 3 ∧ calculate_beat_confidence (List.replicate 3 (0 : ℝ)) = 0 :=
  ⟨by decide, calculate_beat_confidence_degenerate 0 3 (by decide)⟩

/-- Indices of strict local maxima of a signal, modelling
`scipy.signal.find_peaks` for plateau-free signals (a peak is an interior
sample strictly greater than both neighbours; scipy additionally picks the
midpoint of flat plateaus, a case none of the verified properties exercise). -/
def localMaxima (x : List ℚ) : List ℕ :=
  (List.range x.length).filter fun i =>
    decide (0 < i ∧ i + 1 < x.length ∧
      x.getD (i - 1) 0 < x.getD i 0 ∧ x.getD (i + 1) 0 < x.getD i 0)

/-- `scipy.signal.find_peaks(x, height=h)`: local maxima whose value is at
least `h`. -/
def findPeaksHeight (x : List ℚ) (h : ℚ) : List ℕ :=
  (localMaxima x).filter fun i => decide (h ≤ x.getD i 0)

/-- Insertion of an element into a list sorted by the boolean relation. -/
def insertSorted (le : α → α → Bool) (a : α) : List α → List α
  | [] => [a]
  | b :: t => if le a b then a :: b :: t else b :: insertSorted le a t

/-- Insertion sort by a boolean relation. -/
def sortByRel (le : α → α → Bool) : List α → List α
  | [] => []
  | a :: t => insertSorted le a (sortByRel le t)

/-- `scipy.signal.find_peaks(x, distance=d)`: local maxima thinned so that
surviving peaks are at least `d` samples apart; scipy keeps peaks in order of
decreasing height, discarding any peak closer than `d` to one already kept. -/
def findPeaksDistance (x : List ℚ) (d : ℕ) : List ℕ :=
  let maxima := localMaxima x
  let sorted := sortByRel (fun a b => decide (x.getD b 0 ≤ x.getD a 0)) maxima
  let kept := sorted.foldl
    (fun kept p => if kept.any fun q => decide (p < q + d ∧ q < p + d) then kept else p :: kept)
    []
  maxima.filter fun p => kept.contains p

/-- Arithmetic mean of a list of rationals (`np.mean` on exact values). -/
def listMeanQ (l : List ℚ) : ℚ :=
  l.sum / l.length

/-- Index of the first maximum of a list of naturals (`np.argmax`). -/
def argmaxFirst (l : List ℕ) : ℕ :=
  l.findIdx fun x => l.all fun y => y ≤ x

/-- Bin counts of `np.histogram(xs, bins=np.arange(1, 9))`: seven bins with
edges `1..8`; every bin is half-open except the last, which is `[7, 8]`. -/
def histCounts (xs : List ℤ) : List ℕ :=
  (List.range 7).map fun j =>
    (xs.filter fun x =>
      decide (((j : ℤ) + 1 ≤ x ∧ x < (j : ℤ) + 2) ∨ (j = 6 ∧ x = 8))).length

/-- `estimate_time_signature` (src/preprocess.py lines 66-101), modelled on
the success path as a function of the outputs of the external librosa calls:
the onset-strength curve and the tracked beat frames.  With fewer than 8 beat
frames it returns the fixed default 4; otherwise it samples onset strength at
the (clipped) beat positions, finds peaks at least as high as the mean, and
with more than two peaks returns the most frequent inter-peak distance if it
is 3, 4 or 6, defaulting to 4 in every other case. -/
def estimate_time_signature (onset_env : List ℚ) (beat_frames : List ℕ) : ℕ :=
  if beat_frames.length < 8 then 4
  else
    let beat_strengths :=
      beat_frames.map fun f => onset_env.getD (min f (onset_env.length - 1)) 0
    let peaks := findPeaksHeight beat_strengths (listMeanQ beat_strengths)
    if 2 < peaks.length then
      let intervals := npDiff (peaks.map fun p => (p : ℤ))
      if 0 < intervals.length then
        let est := 1 + argmaxFirst (histCounts intervals)
        if est = 3 ∨ est = 4 ∨ est = 6 then est else 4
      else 4
    else 4

/-- C5: whenever beat tracking succeeds and finds fewer than 8 beat frames,
the time-signature estimator returns 4, regardless of the onset-strength
signal. -/
theorem estimate_time_signature_few_beats (onset_env : List ℚ) (beat_frames : List ℕ)
    (h : beat_frames.length < 8) :
    estimate_time_signature onset_env beat_frames = 4 := by
  simp [estimate_time_signature, h]

theorem estimate_time_signature_few_beats_witness :
    ([0, 1, 2] : List ℕ).length < 8 ∧ estimate_time_signature [] [0, 1, 2] = 4 :=
  ⟨by decide, estimate_time_signature_few_beats [] [0, 1, 2] (by decide)⟩

/-- Closed form of the downbeat stride loop (src/preprocess.py lines 161-165):
starting from the anchor, every `time_signature`-th beat index below `n`.  The
source writes this as a `while pos < n: append pos; pos += time_signature`
loop, which never terminates for `time_signature = 0`; the pipeline only calls
it with the positive time signature 4. -/
def strideIndices (first n ts : ℕ) : List ℕ :=
  (List.range n).filter fun i => decide (first ≤ i ∧ (i - first) % ts = 0)

/-- `estimate_downbeats_librosa` (src/preprocess.py lines 104-172), modelled
as a function of the outputs of the external librosa calls: the onset-strength
curve and the per-beat chroma strength (column sums of the beat-synchronous
chroma).  The return type is `Option`: Python's explicit `return` statements
produce `some`, and the fall-through path (no peaks found, end of the `try`
block reached without a `return`) produces `none`, modelling Python's implicit
`return None`. -/
def estimate_downbeats_librosa (onset_env chroma_strength : List ℚ)
    (beat_frames : List ℕ) (time_signature : ℕ) : Option (List ℕ) :=
  if beat_frames.length < time_signature then
    if 0 < beat_frames.length then some [0] else some []
  else
    let valid := beat_frames.filter fun f => decide (f < onset_env.length)
    if valid.length = 0 then some []
    else
      let beat_strengths := valid.map fun f => onset_env.getD f 0
      let minLen := min beat_strengths.length chroma_strength.length
      let combined := List.zipWith
        (fun a b => a * (7 / 10) + b * (3 / 10))
        (beat_strengths.take minLen) (chroma_strength.take minLen)
      let peaks := findPeaksDistance combined time_signature
      if 0 < peaks.length then
        let first_strong := if peaks.getD 0 0 < time_signature then peaks.getD 0 0 else 0
        some (strideIndices first_strong valid.length time_signature)
      else
        none

/-- C9: the spec says that when peak-finding on the combined onset/chroma
strength yields no peaks the downbeat estimator returns an empty downbeat set,
and the function's own docstring promises a numpy array; but on the no-peaks
path the source falls off the end of the `try` block and returns Python
`None`.  Evaluated here at four valid beats with constant onset and chroma
strength (no local maxima, hence no peaks): the result is `none`, not
`some []`. -/
theorem estimate_downbeats_no_peaks_returns_none :
    estimate_downbeats_librosa [1, 1, 1, 1] [1, 1, 1, 1] [0, 1, 2, 3] 4 = none := by
  norm_num [estimate_downbeats_librosa, findPeaksDistance, localMaxima, sortByRel,
    insertSorted, List.range_succ, List.filter]

lemma ceil_toNat_half_lt {r : ℚ} (h : 2 < r) : (⌈r / 2⌉).toNat < (⌈r⌉).toNat := by
  have h2 : (2 : ℚ) < ((⌈r⌉ : ℤ) : ℚ) := lt_of_lt_of_le h (Int.le_ceil r)
  have h3 : (2 : ℤ) < ⌈r⌉ := by exact_mod_cast h2
  have h4 : ⌈r / 2⌉ ≤ ⌈r⌉ - 1 := by
    rw [Int.ceil_le]
    push_cast
    have h5 := Int.le_ceil r
    linarith
  omega

/-- The `speed_ratio > 2.0` branch of `tempo_convert_ffmpeg`
(src/preprocess.py lines 683-688): `while remaining > 1.0` append
`min(2.0, remaining)` and divide it out. -/
def atempoChainUp (r : ℚ) : List ℚ :=
  if h : 2 < r then 2 :: atempoChainUp (r / 2)
  else if 1 < r then [r] else []
termination_by (⌈r⌉).toNat
decreasing_by
  exact ceil_toNat_half_lt h

/-- The `speed_ratio < 0.5` branch of `tempo_convert_ffmpeg`
(src/preprocess.py lines 689-694): `while remaining < 1.0` append
`max(0.5, remaining)` and divide it out (dividing by `0.5` doubles the
remaining ratio).  The source loop diverges for nonpositive ratios, so the
model carries the positivity assumption under which the code is called. -/
def atempoChainDown (r : ℚ) (hr : 0 < r) : List ℚ :=
  if h : r < 1 / 2 then (1 / 2 : ℚ) :: atempoChainDown (r * 2) (by linarith)
  else if r < 1 then [r] else []
termination_by (⌈1 / r⌉).toNat
decreasing_by
  have hinv : 2 < 1 / r := by
    rw [lt_div_iff hr]
    linarith
  have heq : 1 / (r * 2) = (1 / r) / 2 := by
    ring
  rw [heq]
  exact ceil_toNat_half_lt hinv

/-- The atempo filter chain built by `tempo_convert_ffmpeg`
(src/preprocess.py lines 679-696) for a speed ratio `r = target/original`:
a single factor when `r` lies in `[0.5, 2.0]`, otherwise a chain of factors
obtained by the corresponding while loop. -/
def atempoChain (r : ℚ) (hr : 0 < r) : List ℚ :=
  if 2 < r then atempoChainUp r
  else if r < 1 / 2 then atempoChainDown r hr
  else [r]

lemma atempoChainUp_spec :
    ∀ (n : ℕ) (r : ℚ), (⌈r⌉).toNat ≤ n → 1 < r →
      (atempoChainUp r).prod = r ∧
      ∀ f ∈ atempoChainUp r, 1 / 2 ≤ f ∧ f ≤ 2 := by
  intro n
  induction n with
  | zero =>
    intro r hn h1
    exfalso
    have : (1 : ℚ) < ((⌈r⌉ : ℤ) : ℚ) := lt_of_lt_of_le h1 (Int.le_ceil r)
    have h2 : (1 : ℤ) < ⌈r⌉ := by exact_mod_cast this
    omega
  | succ n ih =>
    intro r hn h1
    rw [atempoChainUp]
    by_cases h2 : 2 < r
    · rw [dif_pos h2]
      have hm : (⌈r / 2⌉).toNat ≤ n := by
        have := ceil_toNat_half_lt h2
        omega
      have h3 : 1 < r / 2 := by linarith
      obtain ⟨hp, hb⟩ := ih (r / 2) hm h3
      refine ⟨?_, ?_⟩
      · rw [List.prod_cons, hp]
        ring
      · intro f hf
        rcases List.mem_cons.mp hf with hf | hf
        · rw [hf]
          norm_num
        · exact hb f hf
    · rw [dif_neg h2, if_pos h1]
      refine ⟨List.prod_singleton, ?_⟩
      intro f hf
      rw [List.mem_singleton.mp hf]
      constructor <;> linarith [not_lt.mp h2]

lemma atempoChainDown_spec :
    ∀ (n : ℕ) (r : ℚ) (hr : 0 < r), (⌈1 / r⌉).toNat ≤ n → r < 1 →
      (atempoChainDown r hr).prod = r ∧
      ∀ f ∈ atempoChainDown r hr, 1 / 2 ≤ f ∧ f ≤ 2 := by
  intro n
  induction n with
  | zero =>
    intro r hr hn h1
    exfalso
    have hinv : 1 < 1 / r := by
      rw [lt_div_iff hr]
      linarith
    have : (1 : ℚ) < ((⌈1 / r⌉ : ℤ) : ℚ) := lt_of_lt_of_le hinv (Int.le_ceil _)
    have h2 : (1 : ℤ) < ⌈1 / r⌉ := by exact_mod_cast this
    omega
  | succ n ih =>
    intro r hr hn h1
    rw [atempoChainDown]
    by_cases h2 : r < 1 / 2
    · rw [dif_pos h2]
      have hinv : 2 < 1 / r := by
        rw [lt_div_iff hr]
        linarith
      have hm : (⌈1 / (r * 2)⌉).toNat ≤ n := by
        have heq : 1 / (r * 2) = (1 / r) / 2 := by ring
        rw [heq]
        have := ceil_toNat_half_lt hinv
        omega
      have h3 : r * 2 < 1 := by linarith
      obtain ⟨hp, hb⟩ := ih (r * 2) (by linarith) hm h3
      refine ⟨?_, ?_⟩
      · rw [List.prod_cons, hp]
        ring
      · intro f hf
        rcases List.mem_cons.mp hf with hf | hf
        · rw [hf]
          norm_num
        · exact hb f hf
    · rw [dif_neg h2, if_pos h1]
      refine ⟨List.prod_singleton, ?_⟩
      intro f hf
      rw [List.mem_singleton.mp hf]
      constructor <;> linarith [not_lt.mp h2]

/-- C7: for every positive speed ratio, the atempo filter chain consists of
factors each within `[0.5, 2.0]` whose product is exactly the ratio. -/
theorem atempo_chain_spec (r : ℚ) (hr : 0 < r) :
    (atempoChain r hr).prod = r ∧
    ∀ f ∈ atempoChain r hr, 1 / 2 ≤ f ∧ f ≤ 2 := by
  unfold atempoChain
  split_ifs with h1 h2
  · exact atempoChainUp_spec (⌈r⌉).toNat r le_rfl (by linarith)
  · exact atempoChainDown_spec (⌈1 / r⌉).toNat r hr le_rfl (by linarith)
  · refine ⟨List.prod_singleton, ?_⟩
    intro f hf
    rw [List.mem_singleton.mp hf]
    constructor <;> linarith [not_lt.mp h1, not_lt.mp h2]

theorem atempo_chain_spec_witness :
    (0 : ℚ) < 5 ∧
    ((atempoChain 5 (by norm_num)).prod = 5 ∧
      ∀ f ∈ atempoChain 5 (by norm_num), 1 / 2 ≤ f ∧ f ≤ 2) :=
  ⟨by norm_num, atempo_chain_spec 5 (by norm_num)⟩

/-- Outcome of `tempo_convert_ffmpeg`: which file it returns. -/
inductive TempoChoice
  | atempo
  | asetrate
  | original
deriving DecidableEq

/-- The method-selection logic of `tempo_convert_ffmpeg`
(src/preprocess.py lines 724-754), as a function of whether each strategy
produced an output file and of the BPM detected on each candidate:
`best_error` starts at infinity (modelled by `none`), the atempo candidate is
taken if it exists, then the asetrate candidate replaces it if its detected
BPM is strictly closer to the target; if neither exists the original input
file is returned. -/
def tempo_convert_select (okAtempo : Bool) (bpmAtempo : ℚ)
    (okAsetrate : Bool) (bpmAsetrate : ℚ) (target_bpm : ℚ) : TempoChoice :=
  let best1 : Option (TempoChoice × ℚ) :=
    if okAtempo then some (TempoChoice.atempo, |bpmAtempo - target_bpm|) else none
  let best2 : Option (TempoChoice × ℚ) :=
    if okAsetrate then
      match best1 with
      | none => some (TempoChoice.asetrate, |bpmAsetrate - target_bpm|)
      | some (c, e) =>
        if |bpmAsetrate - target_bpm| < e then
          some (TempoChoice.asetrate, |bpmAsetrate - target_bpm|)
        else some (c, e)
    else best1
  match best2 with
  | some (c, _) => c
  | none => TempoChoice.original

/-- C6: the Tempo Converter never fails — when both the atempo and the
asetrate strategies fail to produce an output file, the original unconverted
input file is returned. -/
theorem tempo_convert_select_both_fail (bpmAtempo bpmAsetrate target_bpm : ℚ) :
    tempo_convert_select false bpmAtempo false bpmAsetrate target_bpm =
      TempoChoice.original := by
  simp [tempo_convert_select]

/-- The beat data produced by `detect_beats_and_downbeats` on its success
path: beat timestamps in seconds, downbeat indices into the beat list, and
the regularity confidence.  The failure path of the detector returns
`(None, None, None, 0.0)`, modelled by `Option.none` at the call site.  (The
detected BPM is also returned by the source but only recorded in metadata,
never used by the windowing logic.) -/
structure BeatData where
  beatTimes : List ℚ
  downbeatIndices : List ℕ
  confidence : ℚ

/-- Result of the windower: the processed (and saved) audio buffer and the
`aligned` flag of `beat_info`. -/
structure AlignResult where
  out : List ℚ
  aligned : Bool

/-- The target sample count of `align_to_downbeat_and_normalize_beats`
(src/preprocess.py lines 259-260): `int(target_beats * (60.0 / TARGET_BPM) *
target_sample_rate)`, always computed from the fixed `TARGET_BPM`, never from
the detected tempo.  The float arithmetic is exact here (`60/120 = 0.5`), so
exact rational arithmetic is faithful. -/
def targetSamplesFor (target_beats sr : ℕ) : ℕ :=
  (pyInt ((target_beats : ℚ) * (60 / (TARGET_BPM : ℚ)) * sr)).toNat

/-- `align_to_downbeat_and_normalize_beats` (src/preprocess.py lines
226-335), modelled as a function of the loaded mono buffer and of the
detector output.  Fallback path: missing beat data, confidence below the
threshold, fewer than 4 beats, or zero downbeats means the buffer is used
as-is, forced to the exact target length, with `aligned = false`.  Otherwise
the first downbeat with at least `target_beats` beats after it (else the
first downbeat, else sample 0) anchors a window of exactly `target_samples`
samples, looping the tail when the remainder is too short; a final
`ensure_exact_length` guarantees the length on every path.  Beat timestamps
are nonnegative in the source (librosa times), matching the `Int.toNat`
slicing used here. -/
def align_to_downbeat_and_normalize_beats (wav : List ℚ) (bd : Option BeatData)
    (target_beats sr : ℕ) (confidence_threshold : ℚ) : AlignResult :=
  let target_samples := targetSamplesFor target_beats sr
  match bd with
  | none => ⟨ensure_exact_length wav target_samples, false⟩
  | some d =>
    if d.confidence < confidence_threshold ∨ d.beatTimes.length < 4 ∨
        d.downbeatIndices.length = 0 then
      ⟨ensure_exact_length wav target_samples, false⟩
    else
      let beat_samples := d.beatTimes.map fun t => pyInt (t * sr)
      let downbeat_samples := d.downbeatIndices.map fun i => beat_samples.getD i 0
      let found := d.downbeatIndices.find? fun (i : ℕ) =>
        decide ((target_beats : ℤ) ≤ (d.beatTimes.length : ℤ) - (i : ℤ))
      let start_sample : ℤ :=
        match found with
        | some i => beat_samples.getD i 0
        | none => if 0 < downbeat_samples.length then downbeat_samples.getD 0 0 else 0
      let pa : List ℚ × Bool :=
        if (wav.length : ℤ) ≤ start_sample then
          (wav, false)
        else if start_sample + target_samples ≤ (wav.length : ℤ) then
          ((wav.drop start_sample.toNat).take target_samples, true)
        else
          let available := wav.length - start_sample.toNat
          let alignedWav := wav.drop start_sample.toNat
          (if available < target_samples then
            tileList (ceilDivNat target_samples available) alignedWav
          else alignedWav, true)
      ⟨ensure_exact_length pa.1 target_samples, pa.2⟩

/-- The audio that `process_wav_with_beat_alignment` finally writes to disk
on its success path (src/preprocess.py lines 462-465): the windower output is
forced once more to `int(TARGET_DURATION * target_sample_rate)` samples
(always 16 seconds) and saved, overwriting the windower's file. -/
def process_wav_with_beat_alignment (wav : List ℚ) (bd : Option BeatData)
    (target_beats sr : ℕ) (confidence_threshold : ℚ) : List ℚ :=
  ensure_exact_length
    (align_to_downbeat_and_normalize_beats wav bd target_beats sr confidence_threshold).out
    (TARGET_DURATION * sr)

/-- C8: whenever beat data is missing, or confidence is below the threshold,
or fewer than 4 beats were found, or the downbeat set is empty, the windower
takes the fallback path: the buffer as-is forced to the exact target length,
marked `aligned = false`. -/
theorem align_fallback_spec (wav : List ℚ) (bd : Option BeatData)
    (tb sr : ℕ) (thr : ℚ)
    (h : bd = none ∨ ∃ d, bd = some d ∧
      (d.confidence < thr ∨ d.beatTimes.length < 4 ∨ d.downbeatIndices = [])) :
    align_to_downbeat_and_normalize_beats wav bd tb sr thr =
      ⟨ensure_exact_length wav (targetSamplesFor tb sr), false⟩ := by
  rcases h with rfl | ⟨d, rfl, hd⟩
  · rfl
  · have hcond : d.confidence < thr ∨ d.beatTimes.length < 4 ∨
        d.downbeatIndices.length = 0 := by
      rcases hd with h | h | h
      · exact Or.inl h
      · exact Or.inr (Or.inl h)
      · exact Or.inr (Or.inr (by rw [h]; rfl))
    simp only [align_to_downbeat_and_normalize_beats, if_pos hcond]

theorem align_fallback_spec_witness :
    ((1 : ℚ) / 4 < 3 / 10) ∧
    align_to_downbeat_and_normalize_beats [1, 2, 3]
        (some ⟨[0, 1/2, 1, 3/2], [0], 1/4⟩) 32 44100 (3/10) =
      ⟨ensure_exact_length [1, 2, 3] (targetSamplesFor 32 44100), false⟩ := by
  have hc : ((1 : ℚ) / 4 < 3 / 10) := by norm_num
  exact ⟨hc, align_fallback_spec _ _ _ _ _ (Or.inr ⟨_, rfl, Or.inl hc⟩)⟩

lemma one_le_ceilDivNat (a b : ℕ) (ha : 1 ≤ a) (hb : 1 ≤ b) :
    1 ≤ ceilDivNat a b := by
  unfold ceilDivNat
  rw [Nat.one_le_div_iff hb]
  omega

lemma tile_drop_pos (len ts : ℕ) (S : ℤ) (hlen : 1 ≤ len)
    (h : ¬ ((len : ℤ) ≤ S)) (hts : 1 ≤ ts) :
    1 ≤ ceilDivNat ts (len - S.toNat) * (len - S.toNat) := by
  have h1 : 1 ≤ len - S.toNat := by omega
  have h2 := one_le_ceilDivNat ts (len - S.toNat) hts h1
  simpa using Nat.mul_le_mul h2 h1

lemma align_out_length (wav : List ℚ) (bd : Option BeatData) (tb sr : ℕ) (thr : ℚ)
    (hw : 1 ≤ wav.length) (hts : 1 ≤ targetSamplesFor tb sr) :
    (align_to_downbeat_and_normalize_beats wav bd tb sr thr).out.length =
      targetSamplesFor tb sr := by
  rcases bd with _ | d
  · exact ensure_exact_length_length wav _ hw
  · simp only [align_to_downbeat_and_normalize_beats]
    split_ifs
    all_goals refine ensure_exact_length_length _ _ ?_
    all_goals first
      | exact hw
      | (rw [List.length_take, List.length_drop]; omega)
      | (rw [tileList_length, List.length_drop];
          exact tile_drop_pos wav.length (targetSamplesFor tb sr) _ hw (by assumption) hts)
      | (rw [List.length_drop]; omega)

/-- C1 (amended): the windower output always has exactly
`target_beats * 60 / TARGET_BPM * sample_rate` samples, but the file written
to disk by the driver is forced once more to `TARGET_DURATION * sample_rate`
samples (16 seconds) regardless of `target_beats`; the two agree only when
`target_beats * 60 / TARGET_BPM` equals `TARGET_DURATION` (for example the
default `target_beats = 32` at `TARGET_BPM = 120`). -/
theorem process_wav_with_beat_alignment_length (wav : List ℚ) (bd : Option BeatData)
    (tb sr : ℕ) (thr : ℚ) (hw : 1 ≤ wav.length) (hts : 1 ≤ targetSamplesFor tb sr) :
    (align_to_downbeat_and_normalize_beats wav bd tb sr thr).out.length =
      targetSamplesFor tb sr ∧
    (process_wav_with_beat_alignment wav bd tb sr thr).length =
      TARGET_DURATION * sr := by
  refine ⟨align_out_length wav bd tb sr thr hw hts, ?_⟩
  unfold process_wav_with_beat_alignment
  refine ensure_exact_length_length _ _ ?_
  rw [align_out_length wav bd tb sr thr hw hts]
  exact hts

theorem process_wav_with_beat_alignment_length_witness :
    1 ≤ ([1] : List ℚ).length ∧ 1 ≤ targetSamplesFor 32 44100 ∧
    (process_wav_with_beat_alignment [1] none 32 44100 (3/10)).length =
      TARGET_DURATION * 44100 := by
  have hts : 1 ≤ targetSamplesFor 32 44100 := by
    unfold targetSamplesFor pyInt TARGET_BPM
    norm_num
  exact ⟨by decide, hts,
    (process_wav_with_beat_alignment_length [1] none 32 44100 (3/10) (by decide) hts).2⟩

/-- C1 (counterexample): with `target_beats = 16` at the default sample rate,
the windower stage produces `16 * 60/120 * 44100 = 352800` samples but the
driver forces the saved file to `16 * 44100 = 705600` samples, so the audio
written to disk does not have `target_beats * 60/TARGET_BPM * sample_rate`
samples. -/
theorem process_wav_with_beat_alignment_length_counterexample :
    ¬ ((process_wav_with_beat_alignment [1] none 16 44100 (3/10)).length =
        targetSamplesFor 16 44100) := by
  have h1 : targetSamplesFor 16 44100 = 352800 := by
    unfold targetSamplesFor pyInt TARGET_BPM
    norm_num
    decide
  have h2 : (process_wav_with_beat_alignment [1] none 16 44100 (3/10)).length =
      TARGET_DURATION * 44100 := by
    unfold process_wav_with_beat_alignment
    refine ensure_exact_length_length _ _ ?_
    rw [align_out_length [1] none 16 44100 (3/10) (by decide) (by omega)]
    omega
  rw [h1, h2]
  decide

end Preprocess
